import Mathlib

/-!
# puggy: an HTTP request router

A shallow embedding of `puggy.go` (package `puggy`) and of the parts of Go's
standard library it calls (`regexp`, `strings.Join`, `net/http`), followed by
theorems about route registration and dispatch.

Modelling conventions:

* A Go `string` is a `List Char` (`Str`): a sequence of Unicode code points,
  i.e. valid UTF-8 text. Positions count characters. A Go string that is not
  valid UTF-8 has no counterpart: on such a template `regexp.MustCompile`
  panics inside `AddRoute` and no route is added, which is outside this
  development.
* `*regexp.Regexp` is a `Regexp`: a linear program of instructions for the
  fragment of RE2 syntax that the repository uses (literals, escaped
  punctuation, `^`, `$`, bracket classes, greedy `+` on a single character,
  capture groups). `MustCompile` returns `none` where Go panics and also where
  a pattern leaves that fragment.
* `http.ResponseWriter` is a record of response headers, status and body;
  an `http.HandlerFunc` is a function that transforms it.
* A Go `map[pathVarName]string` is an association list with unique keys; a
  `nil` map is `none`.
-/

namespace Puggy

/-- Go `string`: a sequence of Unicode code points. -/
abbrev Str := List Char

/-! ## `regexp`: syntax fragment and matcher -/

/-- The `regexp.special` predicate: the bytes escaped by `QuoteMeta`,
namely the characters of `\.+*?()|[]{}^$`. -/
def special (c : Char) : Bool :=
  c == '\\' || c == '.' || c == '+' || c == '*' || c == '?' || c == '(' || c == ')' ||
  c == '|' || c == '[' || c == ']' || c == '\x7b' || c == '\x7d' || c == '^' || c == '$'

/-- The function `regexp.QuoteMeta`: a backslash goes in front of every special
character, every other character is copied. -/
def QuoteMeta : Str → Str
  | [] => []
  | c :: s => if special c then '\\' :: c :: QuoteMeta s else c :: QuoteMeta s

/-- One-character matchers: a literal, or a bracket class (possibly negated)
given by its inclusive ranges. -/
inductive Atom where
  | lit (c : Char)
  | cls (neg : Bool) (ranges : List (Char × Char))
  deriving DecidableEq, Repr

/-- Whether the atom accepts the character. A negated class accepts every
character outside its ranges, newline included (Perl flags set `ClassNL`). -/
def Atom.accepts : Atom → Char → Bool
  | .lit c, x => x == c
  | .cls neg ranges, x => (ranges.any fun r => decide (r.1 ≤ x) && decide (x ≤ r.2)) != neg

/-- Instructions of a compiled pattern. Group `i` records the position where
it opens in slot `2 * i` and where it closes in slot `2 * i + 1`. -/
inductive Inst where
  | rune (a : Atom)
  | plus (a : Atom)
  | beginText
  | endText
  | capOpen (i : Nat)
  | capClose (i : Nat)
  deriving DecidableEq, Repr

/-- A compiled regular expression: its program and the result of
`SubexpNames()` (element 0, for the whole expression, is the empty string;
unnamed groups have the empty name). -/
structure Regexp where
  prog : List Inst
  subexpNames : List Str
  deriving DecidableEq, Repr

/-- Run a program at position `pos` of the text, `rest` being the text from
`pos` on. Returns the end position and the capture slots of the first match
in backtracking order (greedy `+` tries the longest run first). -/
def run : List Inst → Nat → Str → List (Nat × Nat) → Option (Nat × List (Nat × Nat))
  | [], pos, _, caps => some (pos, caps)
  | .rune a :: is, pos, rest, caps =>
    match rest with
    | [] => none
    | c :: cs => if a.accepts c then run is (pos + 1) cs caps else none
  | .plus a :: is, pos, rest, caps =>
    let n := (rest.takeWhile a.accepts).length
    (List.range n).reverse.findSome? fun k =>
      run is (pos + (k + 1)) (rest.drop (k + 1)) caps
  | .beginText :: is, pos, rest, caps =>
    if pos = 0 then run is pos rest caps else none
  | .endText :: is, pos, rest, caps =>
    if rest = [] then run is pos rest caps else none
  | .capOpen i :: is, pos, rest, caps => run is pos rest ((2 * i, pos) :: caps)
  | .capClose i :: is, pos, rest, caps => run is pos rest ((2 * i + 1, pos) :: caps)

/-- Leftmost match at or after `pos`: start, end and capture slots. -/
def search (prog : List Inst) : Nat → Str → Option (Nat × Nat × List (Nat × Nat))
  | pos, [] =>
    match run prog pos [] [] with
    | some (e, caps) => some (pos, e, caps)
    | none => none
  | pos, c :: cs =>
    match run prog pos (c :: cs) [] with
    | some (e, caps) => some (pos, e, caps)
    | none => search prog (pos + 1) cs

/-- Text of group `i + 1` in `s` given the capture slots; empty when the
group did not take part in the match. -/
def groupText (s : Str) (caps : List (Nat × Nat)) (i : Nat) : Str :=
  match caps.lookup (2 * (i + 1)), caps.lookup (2 * (i + 1) + 1) with
  | some b, some e => (s.drop b).take (e - b)
  | _, _ => []

/-- The method `(*Regexp).FindStringSubmatch`: the empty (nil) slice when
there is no match, else the text of the leftmost match followed by the text
of each group. -/
def Regexp.FindStringSubmatch (re : Regexp) (s : Str) : List Str :=
  match search re.prog 0 s with
  | none => []
  | some (b, e, caps) =>
    (s.drop b).take (e - b) ::
      (List.range (re.subexpNames.length - 1)).map (groupText s caps)

/-- The method `(*Regexp).SubexpNames`. -/
def Regexp.SubexpNames (re : Regexp) : List Str := re.subexpNames

/-! ## `regexp`: parser for the fragment -/

/-- Parser state: instructions emitted so far (most recent first), names of
the groups opened so far (most recent first) and the stack of groups still
open. -/
structure PState where
  insts : List Inst
  names : List Str
  opened : List Nat
  deriving DecidableEq, Repr

/-- Append one instruction. -/
def PState.emit (st : PState) (i : Inst) : PState :=
  { st with insts := i :: st.insts }

/-- Open capture group number `names.length + 1` with the given name. -/
def PState.openGroup (st : PState) (name : Str) : PState :=
  { insts := .capOpen (st.names.length + 1) :: st.insts
    names := name :: st.names
    opened := (st.names.length + 1) :: st.opened }

/-- The check `isValidCaptureName` on one character: `_` or an ASCII letter or
digit. -/
def isWordChar (c : Char) : Bool := c == '_' || c.isAlphanum

/-- The items of a bracket class whose first character is `lo` and whose
remaining text (up to the closing `]`) is given: single characters and ranges
`lo-hi`; a range with `hi < lo` is an error, and a `-` with nothing after it
stands for itself. -/
def classFrom : Char → Str → Option (List (Char × Char))
  | lo, [] => some [(lo, lo)]
  | lo, m :: t =>
    if m = '-' then
      match t with
      | [] => some [(lo, lo), ('-', '-')]
      | hi :: t2 =>
        if hi < lo then none
        else
          match t2 with
          | [] => some [(lo, hi)]
          | c :: t3 => (classFrom c t3).map fun r => (lo, hi) :: r
    else (classFrom m t).map fun r => (lo, lo) :: r

/-- The items of a bracket class between `[` (or `[^`) and `]`. -/
def classRanges : Str → Option (List (Char × Char))
  | [] => some []
  | c :: t => classFrom c t

/-- A bracket class whose text after `[` is `t`: the atom and the text after
the closing `]`. Escapes, nested `[` and a leading `]` are outside the
fragment. -/
def parseClass (t : Str) : Option (Atom × Str) :=
  let neg := t.head? == some '^'
  let t := if neg then t.drop 1 else t
  let body := t.takeWhile fun c => c != ']'
  match t.dropWhile fun c => c != ']' with
  | [] => none
  | _ :: rest =>
    if body = [] ∨ '\\' ∈ body ∨ '[' ∈ body then none
    else (classRanges body).map fun r => (Atom.cls neg r, rest)

/-- The parse loop of `regexp/syntax.Parse` with the `Perl` flags, restricted
to the fragment; `none` is a parse error or a construct outside the fragment
(alternation, `.`, `*`, `?`, counted repetition, repetition of anything but a
single character, flags, escapes of letters and digits). The fuel bounds the
number of iterations; each iteration consumes at least one character. -/
def parseLoop : Nat → Str → PState → Option PState
  | 0, _, _ => none
  | _ + 1, [], st => if st.opened = [] then some st else none
  | fuel + 1, c :: t, st =>
    if c = '(' then
      match t with
      | '?' :: 'P' :: '<' :: t2 =>
        let name := t2.takeWhile fun x => x != '>'
        match t2.dropWhile fun x => x != '>' with
        | [] => none
        | _ :: t3 =>
          if name ≠ [] ∧ name.all isWordChar = true then parseLoop fuel t3 (st.openGroup name)
          else none
      | '?' :: _ => none
      | _ => parseLoop fuel t (st.openGroup [])
    else if c = ')' then
      match st.opened with
      | [] => none
      | i :: os => parseLoop fuel t { st with insts := .capClose i :: st.insts, opened := os }
    else if c = '^' then parseLoop fuel t (st.emit .beginText)
    else if c = '$' then parseLoop fuel t (st.emit .endText)
    else if c = '+' then
      match st.insts with
      | .rune a :: is => parseLoop fuel t { st with insts := .plus a :: is }
      | _ => none
    else if c = '*' ∨ c = '?' ∨ c = '|' ∨ c = '.' then none
    else if c = '\x7b' then
      match t with
      | d :: _ => if d.isDigit then none else parseLoop fuel t (st.emit (.rune (.lit c)))
      | [] => parseLoop fuel t (st.emit (.rune (.lit c)))
    else if c = '[' then
      match parseClass t with
      | none => none
      | some (a, rest) => parseLoop fuel rest (st.emit (.rune a))
    else if c = '\\' then
      match t with
      | [] => none
      | e :: t1 =>
        if e.toNat < 128 ∧ e.isAlphanum = false then parseLoop fuel t1 (st.emit (.rune (.lit e)))
        else none
    else parseLoop fuel t (st.emit (.rune (.lit c)))

/-- The function `regexp.MustCompile`: `none` where Go panics (or the pattern
is outside the fragment). -/
def MustCompile (str : Str) : Option Regexp :=
  match parseLoop (str.length + 1) str { insts := [], names := [], opened := [] } with
  | none => none
  | some st => some { prog := st.insts.reverse, subexpNames := [] :: st.names.reverse }

/-- The loop of `(*Regexp).replaceAll`: `lastMatchEnd` is the end of the most
recent match, `searchPos` the position where the next match is looked for,
`buf` the output so far. Every iteration moves `searchPos` forward, so
`src.length + 2` iterations are enough. -/
def replaceAll (re : Regexp) (src : Str) (repl : Str → Str) : Nat → Nat → Nat → Str → Str
  | 0, lastMatchEnd, _, buf => buf ++ src.drop lastMatchEnd
  | fuel + 1, lastMatchEnd, searchPos, buf =>
    if searchPos ≤ src.length then
      match search re.prog searchPos (src.drop searchPos) with
      | none => buf ++ src.drop lastMatchEnd
      | some (b, e, _) =>
        let buf := buf ++ (src.drop lastMatchEnd).take (b - lastMatchEnd)
        let buf := if e > lastMatchEnd ∨ b = 0 then buf ++ repl ((src.drop b).take (e - b)) else buf
        let width := if searchPos < src.length then 1 else 0
        let searchPos :=
          if searchPos + width > e then searchPos + width
          else if searchPos + 1 > e then searchPos + 1
          else e
        replaceAll re src repl fuel e searchPos buf
    else buf ++ src.drop lastMatchEnd

/-- The method `(*Regexp).ReplaceAllStringFunc`: every leftmost non-overlapping
match of the pattern in `src` is replaced by `repl` of the matched text. -/
def Regexp.ReplaceAllStringFunc (re : Regexp) (src : Str) (repl : Str → Str) : Str :=
  replaceAll re src repl (src.length + 2) 0 0 []

/-! ## `strings`, `context` and `net/http` -/

/-- The function `strings.Join`: the elements with `sep` between neighbours. -/
def Join (elems : List Str) (sep : Str) : Str :=
  match elems with
  | [] => []
  | e :: es => es.foldl (fun b s => b ++ sep ++ s) e

/-- Keys of request-context values. A key of the named type `pathVarName` is
distinct from every key of another type, whatever its text. -/
inductive CtxKey where
  | pathVarName (name : Str)
  | other (name : Str)
  deriving DecidableEq, Repr

/-- The fields of `*http.Request` that matter here: method, `URL.Path`, the
context (a chain of key/value pairs, the innermost first) and the rest of
the request. -/
structure Request where
  Method : Str
  URLPath : Str
  ctx : List (CtxKey × Str)
  Header : List (Str × Str)
  Body : Str
  deriving DecidableEq, Repr

/-- Lookup `req.Context().Value(key)`: the innermost value stored under `key`. -/
def Request.Value (req : Request) (key : CtxKey) : Option Str :=
  req.ctx.lookup key

/-- Go `req.WithContext(context.WithValue(req.Context(), key, val))`. -/
def Request.WithValue (req : Request) (key : CtxKey) (val : Str) : Request :=
  { req with ctx := (key, val) :: req.ctx }

/-- Response headers: a map from (canonical) header name to value. -/
abbrev Header := List (Str × Str)

/-- The method `Header.Set`: the value under `key` is replaced. The keys
puggy uses are already in canonical form. -/
def Header.Set (h : Header) (key value : Str) : Header :=
  (key, value) :: h.filter fun e => e.1 != key

/-- The method `Header.Get`: the value under `key`, or the empty string. -/
def Header.Get (h : Header) (key : Str) : Str :=
  (h.lookup key).getD []

/-- The method `Header.Del`. -/
def Header.Del (h : Header) (key : Str) : Header :=
  h.filter fun e => e.1 != key

/-- State of an `http.ResponseWriter`: header map, status code once written,
body written so far. -/
structure ResponseWriter where
  header : Header
  status : Option Nat
  body : Str
  deriving DecidableEq, Repr

/-- A fresh writer, as `httptest.NewRecorder()` gives. -/
def NewRecorder : ResponseWriter := { header := [], status := none, body := [] }

/-- The method `WriteHeader`: the first status written stays. -/
def ResponseWriter.WriteHeader (w : ResponseWriter) (code : Nat) : ResponseWriter :=
  if w.status.isSome then w else { w with status := some code }

/-- The method `Write`: writes status 200 first unless a status is already
written, then appends to the body. -/
def ResponseWriter.Write (w : ResponseWriter) (b : Str) : ResponseWriter :=
  let w := w.WriteHeader 200
  { w with body := w.body ++ b }

/-- The function `http.Error`. -/
def Error (w : ResponseWriter) (error : Str) (code : Nat) : ResponseWriter :=
  let w := { w with header := w.header.Del "Content-Length".toList }
  let w := { w with header := w.header.Set "Content-Type".toList "text/plain; charset=utf-8".toList }
  let w := { w with header := w.header.Set "X-Content-Type-Options".toList "nosniff".toList }
  let w := w.WriteHeader code
  w.Write (error ++ "\n".toList)

/-- The function `http.NotFound`. -/
def NotFound (w : ResponseWriter) (_r : Request) : ResponseWriter :=
  Error w "404 page not found".toList 404

/-- The type `http.HandlerFunc`: what the handler does to the writer, given the
request. -/
abbrev HandlerFunc := ResponseWriter → Request → ResponseWriter

/-! ## `puggy.go` -/

/-- Route defines a single route. -/
structure Route where
  Method : Str
  Path : Regexp
  Handler : HandlerFunc

/-- Router holds routes and cors domains. -/
structure Router where
  Routes : List Route
  Domains : List Str

/-- A `map[pathVarName]string`; the keys are unique. -/
abbrev PathVars := List (Str × Str)

/-- The map assignment `vars[key] = value`. -/
def PathVars.set (vars : PathVars) (key value : Str) : PathVars :=
  if vars.any (fun e => e.1 == key) then
    vars.map fun e => if e.1 = key then (key, value) else e
  else vars ++ [(key, value)]

/-- NewRouter makes a new router. -/
def NewRouter (domains : List Str) : Router :=
  { Routes := [], Domains := domains }

/-- The function `createRegexPattern`: the template is escaped with
`QuoteMeta`, every match of the placeholder pattern in the escaped text is
replaced by a named group, and the result is anchored. In the closure,
`FindStringSubmatch(m)[1]` is the text of group 1 of the match `m`. -/
def createRegexPattern (path : Str) : Option Str :=
  match MustCompile "/\x7b([^/]+)\x7d".toList with
  | none => none
  | some re =>
    let escapedPath := QuoteMeta path
    let regexPattern := re.ReplaceAllStringFunc escapedPath fun m =>
      let variableName := (re.FindStringSubmatch m).getD 1 []
      "(?P<".toList ++ variableName ++ ">[^/]+)".toList
    some ("^".toList ++ regexPattern ++ "$".toList)

/-- The method `(*Router).AddRoute`: compiles the path and appends the route;
`none` where `MustCompile` panics. The path is a `Str`, that is valid text:
the panic of `MustCompile` on a path that is not valid UTF-8 is not
represented. -/
def Router.AddRoute (router : Router) (method : Str) (path : Str) (handler : HandlerFunc) :
    Option Router :=
  let regexPattern := if path = "/".toList then some "^/$".toList else createRegexPattern path
  match regexPattern with
  | none => none
  | some regexPattern =>
    match MustCompile regexPattern with
    | none => none
    | some re =>
      let route : Route := { Method := method, Path := re, Handler := handler }
      some { router with Routes := router.Routes ++ [route] }

/-- The function `matchPath` takes a regex and a string and returns a map of
the variables in the url: `none` (nil) when the regex does not match, else
the text of every named group under its name. -/
def matchPath (path : Regexp) (urlPath : Str) : Option PathVars :=
  let found := path.FindStringSubmatch urlPath
  if found.length = 0 then none
  else
    some <| path.SubexpNames.enum.foldl
      (fun vars e => if e.1 = 0 ∨ e.2 = [] then vars else vars.set e.2 (found.getD e.1 []))
      []

/-- The function `setCORS` defines allowed domains, methods and headers. -/
def setCORS (writer : ResponseWriter) (domains : List Str) : ResponseWriter :=
  let writer := { writer with
    header := writer.header.Set "Access-Control-Allow-Origin".toList (Join domains ",".toList) }
  let writer := { writer with
    header := writer.header.Set "Access-Control-Allow-Methods".toList
      "GET, POST, PUT, DELETE, OPTIONS".toList }
  { writer with
    header := writer.header.Set "Access-Control-Allow-Headers".toList
      "Origin, Content-Type, Accept".toList }

/-- The loop of `ServeHTTP` that adds the URL path variables to the request
context, each under its `pathVarName` key. The variables are added in the
order of the list (Go leaves the order of a map range open; the keys are
unique). -/
def attachVars (req : Request) (vars : PathVars) : Request :=
  vars.foldl (fun req e => req.WithValue (CtxKey.pathVarName e.1) e.2) req

/-- The loop of `ServeHTTP` over the routes still to be tried, followed by the
final `http.NotFound`. -/
def serveRoutes (domains : List Str) : List Route → ResponseWriter → Request → ResponseWriter
  | [], writer, req => NotFound writer req
  | route :: routes, writer, req =>
    if req.Method ≠ route.Method then serveRoutes domains routes writer req
    else
      match matchPath route.Path req.URLPath with
      | none => serveRoutes domains routes writer req
      | some vars =>
        let writer := setCORS writer domains
        if req.Method = "OPTIONS".toList then writer.WriteHeader 200
        else route.Handler writer (attachVars req vars)

/-- ServeHTTP matches the methods and paths with the right handler. -/
def Router.ServeHTTP (router : Router) (writer : ResponseWriter) (req : Request) :
    ResponseWriter :=
  serveRoutes router.Domains router.Routes writer req

/-! ## Patterns and handlers used in the statements -/

/-- The program that matches exactly the text `p`: `^`, the characters of `p`
as literals, `$`; no groups. -/
def exactRegexp (p : Str) : Regexp :=
  { prog := .beginText :: (p.map fun c => Inst.rune (.lit c)) ++ [.endText]
    subexpNames := [[]] }

/-- The compiled form of the placeholder pattern of `createRegexPattern`:
`/`, `{`, group 1 holding one or more characters other than `/`, `}`. -/
def placeholderRegexp : Regexp :=
  { prog := [.rune (.lit '/'), .rune (.lit '\x7b'), .capOpen 1,
      .plus (.cls true [('/', '/')]), .capClose 1, .rune (.lit '\x7d')]
    subexpNames := [[], []] }

/-- A route matches a request: same method, and the pattern matches the path. -/
def Route.Matches (route : Route) (req : Request) : Prop :=
  route.Method = req.Method ∧ matchPath route.Path req.URLPath ≠ none

/-- A request with the given method and path, an empty context, no headers
and no body, as `http.NewRequest(method, path, nil)` gives. -/
def NewRequest (method path : Str) : Request :=
  { Method := method, URLPath := path, ctx := [], Header := [], Body := [] }

/-- The handler of `GET /` in `TestServeHTTP`: writes "Hello, world!". -/
def helloHandler : HandlerFunc :=
  fun w _ => w.Write "Hello, world!".toList

/-- The handler of `GET /books/{id}` in `TestServeHTTP`: writes "Book "
followed by the context value of `pathVarName("id")`. -/
def bookHandler : HandlerFunc :=
  fun w req => w.Write ("Book ".toList ++ (req.Value (.pathVarName "id".toList)).getD [])

/-- The compiled form of `^/(?P<id>[^/]+)$`: one path segment, captured under
the name `id`. -/
def idRegexp : Regexp :=
  { prog := [.beginText, .rune (.lit '/'), .capOpen 1, .plus (.cls true [('/', '/')]),
      .capClose 1, .endText]
    subexpNames := [[], "id".toList] }

/-- A router with two `GET` routes that both match `/users`: first the
one-segment pattern with `bookHandler`, then the literal `/users` with
`helloHandler`. -/
def overlapRouter : Router :=
  { Routes := [⟨"GET".toList, idRegexp, bookHandler⟩,
      ⟨"GET".toList, exactRegexp "/users".toList, helloHandler⟩]
    Domains := ["a".toList, "b".toList] }

/-- The router of `TestServeHTTP` reduced to its route `GET /books/{id}`,
as `AddRoute` builds it. -/
def booksRouter : Router :=
  { Routes := [⟨"GET".toList, exactRegexp "/books/\x7bid\x7d".toList, bookHandler⟩]
    Domains := ["example.com".toList] }

/-- A router whose only route is `OPTIONS /` with `helloHandler`, as `AddRoute`
builds it. -/
def optionsRouter : Router :=
  { Routes := [⟨"OPTIONS".toList, exactRegexp "/".toList, helloHandler⟩]
    Domains := ["a".toList, "b".toList] }

/-- Spec side of dispatch, selection: the first route in registration order
whose method is `method` and whose pattern matches `path`, with the variables
it captures. A function of the route list, the method and the path only. -/
def selectRoute (routes : List Route) (method path : Str) : Option (Route × PathVars) :=
  routes.findSome? fun route =>
    if route.Method = method then (matchPath route.Path path).map fun vars => (route, vars)
    else none

/-- Spec side of dispatch, response: not-found when no route is selected; else
the CORS headers, then status 200 for an "OPTIONS" request and the selected
route's handler, on the request with the captured variables, otherwise. -/
def respond (domains : List Str) (sel : Option (Route × PathVars)) (w : ResponseWriter)
    (req : Request) : ResponseWriter :=
  match sel with
  | none => NotFound w req
  | some (route, vars) =>
    if req.Method = "OPTIONS".toList then (setCORS w domains).WriteHeader 200
    else route.Handler (setCORS w domains) (attachVars req vars)

/-- The handler of `POST ^/users$` in `TestServeHTTP`: writes "User created". -/
def userCreatedHandler : HandlerFunc :=
  fun w _ => w.Write "User created".toList

/-- The handler of `PUT ^/users/(?P<id>[0-9]+)$` in `TestServeHTTP`: writes
"Updating user " followed by the context value of `pathVarName("id")`. -/
def updateUserHandler : HandlerFunc :=
  fun w req => w.Write ("Updating user ".toList ++ (req.Value (.pathVarName "id".toList)).getD [])

/-- The router of `TestServeHTTP` reduced to its two routes with regular
expressions as paths, as `AddRoute` builds it: both patterns are the escaped
literal text of the expression. -/
def usersRouter : Router :=
  { Routes := [⟨"POST".toList, exactRegexp "^/users$".toList, userCreatedHandler⟩,
      ⟨"PUT".toList, exactRegexp "^/users/(?P<id>[0-9]+)$".toList, updateUserHandler⟩]
    Domains := ["example.com".toList] }

/-- The compiled form of the pattern of `TestMatchPath`,
`^/users/(?P<id>[0-9]+)/blog/(?P<blog_id>[0-9]+)$`. -/
def usersBlogRegexp : Regexp :=
  { prog := [.beginText, .rune (.lit '/'), .rune (.lit 'u'), .rune (.lit 's'),
      .rune (.lit 'e'), .rune (.lit 'r'), .rune (.lit 's'), .rune (.lit '/'), .capOpen 1,
      .plus (.cls false [('0', '9')]), .capClose 1, .rune (.lit '/'), .rune (.lit 'b'),
      .rune (.lit 'l'), .rune (.lit 'o'), .rune (.lit 'g'), .rune (.lit '/'), .capOpen 2,
      .plus (.cls false [('0', '9')]), .capClose 2, .endText]
    subexpNames := [[], "id".toList, "blog_id".toList] }

/-! ## Lemmas on `QuoteMeta`, the parser and the matcher -/

theorem mustCompile_placeholder :
    MustCompile "/\x7b([^/]+)\x7d".toList = some placeholderRegexp := by
  decide

theorem special_slash : special '/' = false := by decide

theorem quoteMeta_head_ne_brace (s : Str) : (QuoteMeta s).head? ≠ some '\x7b' := by
  cases s with
  | nil => simp [QuoteMeta]
  | cons c s =>
    unfold QuoteMeta
    by_cases h : special c = true
    · simp [h]
    · simp only [h]
      simp
      intro hc
      subst hc
      exact h (by decide)

theorem quoteMeta_no_slash_brace (s : Str) : ¬ ['/', '\x7b'] <:+: QuoteMeta s := by
  induction s with
  | nil => simp [QuoteMeta]
  | cons c s ih =>
    unfold QuoteMeta
    have hh := quoteMeta_head_ne_brace s
    by_cases h : special c = true
    · simp only [h, if_true]
      rw [List.infix_cons_iff, List.infix_cons_iff]
      rintro (hp | hp | hp)
      · simp [List.cons_prefix_cons] at hp
      · rw [List.cons_prefix_cons] at hp
        rw [← hp.1] at h
        simp [special_slash] at h
      · exact ih hp
    · have h2 : special c = false := by simpa using h
      simp only [h2]
      rw [if_neg (by simp), List.infix_cons_iff]
      rintro (hp | hp)
      · rw [List.cons_prefix_cons] at hp
        obtain ⟨_, hp2⟩ := hp
        cases hq : QuoteMeta s with
        | nil => simp [hq] at hp2
        | cons d ds =>
          rw [hq, List.cons_prefix_cons] at hp2
          apply hh
          simp [hq, hp2.1.symm]
      · exact ih hp

theorem search_placeholder_none (l : Str) (h : ¬ ['/', '\x7b'] <:+: l) (pos : Nat) :
    search placeholderRegexp.prog pos l = none := by
  induction l generalizing pos with
  | nil => simp [search, run, placeholderRegexp]
  | cons c cs ih =>
    have hcs : ¬ ['/', '\x7b'] <:+: cs := fun hi => h (List.infix_cons hi)
    rw [search, ih hcs]
    have hrun : run placeholderRegexp.prog pos (c :: cs) [] = none := by
      simp only [placeholderRegexp, run, Atom.accepts]
      by_cases hc : c = '/'
      · subst hc
        cases cs with
        | nil => simp
        | cons d ds =>
          by_cases hd : d = '\x7b'
          · subst hd
            exact absurd (List.prefix_append _ ds).isInfix h
          · simp [hd]
      · simp [hc]
    rw [hrun]

theorem replaceAll_no_match (re : Regexp) (src : Str) (repl : Str → Str)
    (h : search re.prog 0 src = none) : re.ReplaceAllStringFunc src repl = src := by
  simp [Regexp.ReplaceAllStringFunc, replaceAll, h]

theorem createRegexPattern_eq (path : Str) :
    createRegexPattern path = some ('^' :: QuoteMeta path ++ ['$']) := by
  unfold createRegexPattern
  rw [mustCompile_placeholder]
  simp only
  rw [replaceAll_no_match _ _ _ (search_placeholder_none _ (quoteMeta_no_slash_brace path) 0)]
  rfl


theorem special_cases (c : Char) (h : special c = true) :
    c = '\\' ∨ c = '.' ∨ c = '+' ∨ c = '*' ∨ c = '?' ∨ c = '(' ∨ c = ')' ∨ c = '|' ∨
    c = '[' ∨ c = ']' ∨ c = '\x7b' ∨ c = '\x7d' ∨ c = '^' ∨ c = '$' := by
  simpa [special, or_assoc] using h

theorem parseLoop_escaped (fuel : Nat) (c : Char) (t : Str) (st : PState)
    (h : special c = true) :
    parseLoop (fuel + 1) ('\\' :: c :: t) st = parseLoop fuel t (st.emit (.rune (.lit c))) := by
  rcases special_cases c h with h | h | h | h | h | h | h | h | h | h | h | h | h | h <;>
    subst h <;> simp [parseLoop]

theorem parseLoop_plain (fuel : Nat) (c : Char) (t : Str) (st : PState)
    (h : special c = false) :
    parseLoop (fuel + 1) (c :: t) st = parseLoop fuel t (st.emit (.rune (.lit c))) := by
  simp only [special, Bool.or_eq_false_iff, beq_eq_false_iff_ne, ne_eq] at h
  obtain ⟨⟨⟨⟨⟨⟨⟨⟨⟨⟨⟨⟨⟨h1, h2⟩, h3⟩, h4⟩, h5⟩, h6⟩, h7⟩, h8⟩, h9⟩, h10⟩, h11⟩, h12⟩, h13⟩, h14⟩ := h
  simp [parseLoop, h1, h2, h3, h4, h5, h6, h7, h8, h9, h11, h13, h14]


theorem parseLoop_quoted (p : Str) (fuel : Nat) (st : PState) (ho : st.opened = [])
    (hf : (QuoteMeta p).length + 2 ≤ fuel) :
    parseLoop fuel (QuoteMeta p ++ ['$']) st =
      some { st with insts := .endText :: (p.map fun c => Inst.rune (.lit c)).reverse ++ st.insts } := by
  induction p generalizing fuel st with
  | nil =>
    obtain ⟨f, rfl⟩ : ∃ f, fuel = f + 2 := ⟨fuel - 2, by simp [QuoteMeta] at hf; omega⟩
    simp [QuoteMeta, parseLoop, PState.emit, ho]
  | cons c p ih =>
    by_cases h : special c = true
    · have hq : QuoteMeta (c :: p) = '\\' :: c :: QuoteMeta p := by simp [QuoteMeta, h]
      rw [hq] at hf ⊢
      obtain ⟨f, rfl⟩ : ∃ f, fuel = f + 2 := ⟨fuel - 2, by simp at hf; omega⟩
      rw [List.cons_append, List.cons_append, parseLoop_escaped _ _ _ _ h,
        ih (f + 1) (st.emit (.rune (.lit c))) (by simpa [PState.emit] using ho)
          (by simp at hf; omega)]
      simp [PState.emit]
    · have h2 : special c = false := by simpa using h
      have hq : QuoteMeta (c :: p) = c :: QuoteMeta p := by simp [QuoteMeta, h2]
      rw [hq] at hf ⊢
      obtain ⟨f, rfl⟩ : ∃ f, fuel = f + 1 := ⟨fuel - 1, by simp at hf; omega⟩
      rw [List.cons_append, parseLoop_plain _ _ _ _ h2,
        ih f (st.emit (.rune (.lit c))) (by simpa [PState.emit] using ho) (by simp at hf; omega)]
      simp [PState.emit]


theorem mustCompile_quoted (p : Str) :
    MustCompile ('^' :: QuoteMeta p ++ ['$']) = some (exactRegexp p) := by
  unfold MustCompile
  have h1 : parseLoop (('^' :: QuoteMeta p ++ ['$']).length + 1) ('^' :: QuoteMeta p ++ ['$'])
      { insts := [], names := [], opened := [] } =
      parseLoop ((QuoteMeta p).length + 2) (QuoteMeta p ++ ['$'])
        { insts := [.beginText], names := [], opened := [] } := by
    simp [parseLoop, PState.emit]
  rw [h1, parseLoop_quoted p _ _ rfl (le_refl _)]
  simp [exactRegexp]

theorem run_exact (p : Str) (pos : Nat) (t : Str) (caps : List (Nat × Nat)) :
    run ((p.map fun c => Inst.rune (.lit c)) ++ [.endText]) pos t caps =
      if t = p then some (pos + p.length, caps) else none := by
  induction p generalizing pos t with
  | nil => cases t <;> simp [run]
  | cons c p ih =>
    cases t with
    | nil => simp [run]
    | cons d t =>
      simp only [List.map_cons, List.cons_append, run, Atom.accepts]
      by_cases hd : d = c
      · subst hd
        rw [if_pos (by simp)]
        have h := ih (pos + 1) t
        simp only [List.append_eq] at h ⊢
        rw [h]
        by_cases ht : t = p
        · simp [ht]; omega
        · simp [ht]
      · simp [hd]

theorem search_exact_pos (p : Str) (pos : Nat) (t : Str) :
    search (exactRegexp p).prog (pos + 1) t = none := by
  induction t generalizing pos with
  | nil => simp [search, exactRegexp, run]
  | cons c t ih =>
    have h := ih (pos + 1)
    simp only [exactRegexp, List.cons_append] at h
    simp [search, exactRegexp, run, h]

theorem search_exact (p t : Str) :
    search (exactRegexp p).prog 0 t = if t = p then some (0, p.length, []) else none := by
  have hr : run (exactRegexp p).prog 0 t [] = if t = p then some (p.length, []) else none := by
    simp [exactRegexp, run, run_exact]
  cases t with
  | nil =>
    rw [search, hr]
    by_cases h : [] = p <;> simp [h]
  | cons c t =>
    rw [search, hr, search_exact_pos]
    by_cases h : c :: t = p <;> simp [h]

theorem matchPath_exact (p t : Str) :
    matchPath (exactRegexp p) t = if t = p then some [] else none := by
  unfold matchPath Regexp.FindStringSubmatch
  rw [search_exact]
  by_cases h : t = p
  · simp [h, exactRegexp, Regexp.SubexpNames, List.enum]
  · simp [h]

theorem addRoute_eq (router : Router) (method path : Str) (handler : HandlerFunc) :
    router.AddRoute method path handler =
      some { router with
        Routes := router.Routes ++ [{ Method := method, Path := exactRegexp path, Handler := handler }] } := by
  unfold Router.AddRoute
  by_cases h : path = "/".toList
  · subst h
    have hc : MustCompile "^/$".toList = some (exactRegexp "/".toList) := by decide
    simp only [if_true, hc]
  · simp only [h, if_false, createRegexPattern_eq, mustCompile_quoted]


/-! ## Dispatch lemmas -/

theorem serveRoutes_skip (domains : List Str) (pre rest : List Route) (w : ResponseWriter)
    (req : Request) (h : ∀ r ∈ pre, ¬ r.Matches req) :
    serveRoutes domains (pre ++ rest) w req = serveRoutes domains rest w req := by
  induction pre with
  | nil => rfl
  | cons r pre ih =>
    have hr : ¬ r.Matches req := h r (List.mem_cons_self _ _)
    have ih2 := ih fun x hx => h x (List.mem_cons_of_mem _ hx)
    rw [List.cons_append, serveRoutes]
    by_cases hm : req.Method = r.Method
    · have hn : matchPath r.Path req.URLPath = none := by
        by_contra hc
        exact hr ⟨hm.symm, hc⟩
      simp [hm, hn, ih2]
    · simp [hm, ih2]

theorem serveRoutes_hit (domains : List Str) (route : Route) (rest : List Route)
    (w : ResponseWriter) (req : Request) (vars : PathVars) (hm : route.Method = req.Method)
    (hv : matchPath route.Path req.URLPath = some vars) :
    serveRoutes domains (route :: rest) w req =
      if req.Method = "OPTIONS".toList then (setCORS w domains).WriteHeader 200
      else route.Handler (setCORS w domains) (attachVars req vars) := by
  rw [serveRoutes]
  simp [hm, hv]

theorem exists_first_match (routes : List Route) (req : Request)
    (h : ∃ r ∈ routes, r.Matches req) :
    ∃ pre r post, routes = pre ++ r :: post ∧ r.Matches req ∧ ∀ x ∈ pre, ¬ x.Matches req := by
  induction routes with
  | nil => simp at h
  | cons a routes ih =>
    by_cases ha : a.Matches req
    · exact ⟨[], a, routes, rfl, ha, by simp⟩
    · obtain ⟨r, hr, hrm⟩ := h
      have hr2 : r ∈ routes := by
        rcases List.mem_cons.1 hr with h1 | h1
        · subst h1; exact absurd hrm ha
        · exact h1
      obtain ⟨pre, r2, post, he, hm, hp⟩ := ih ⟨r, hr2, hrm⟩
      refine ⟨a :: pre, r2, post, by simp [he], hm, ?_⟩
      intro x hx
      rcases List.mem_cons.1 hx with h1 | h1
      · subst h1; exact ha
      · exact hp x h1

theorem header_get_set (h : Header) (k v : Str) : (h.Set k v).Get k = v := by
  simp [Header.Set, Header.Get, List.lookup]

theorem header_get_set_ne (h : Header) (k k2 v : Str) (hk : k2 ≠ k) :
    (h.Set k v).Get k2 = h.Get k2 := by
  have hf : ∀ l : Header, (l.filter fun e => e.1 != k).lookup k2 = l.lookup k2 := by
    intro l
    induction l with
    | nil => rfl
    | cons e l ih =>
      obtain ⟨a, b⟩ := e
      by_cases hak : a = k
      · subst hak
        have : (k2 == a) = false := by simpa using hk
        simp [List.filter, List.lookup, this, ih]
      · have h1 : (a != k) = true := by simpa using hak
        simp only [List.filter, h1, List.lookup, ih]
  have h2 : (k2 == k) = false := by simpa using hk
  simp [Header.Set, Header.Get, List.lookup, h2, hf]

theorem header_get_del_ne (h : Header) (k k2 : Str) (hk : k2 ≠ k) :
    (h.Del k).Get k2 = h.Get k2 := by
  have hf : ∀ l : Header, (l.filter fun e => e.1 != k).lookup k2 = l.lookup k2 := by
    intro l
    induction l with
    | nil => rfl
    | cons e l ih =>
      obtain ⟨a, b⟩ := e
      by_cases hak : a = k
      · subst hak
        have : (k2 == a) = false := by simpa using hk
        simp [List.filter, List.lookup, this, ih]
      · have h1 : (a != k) = true := by simpa using hak
        simp only [List.filter, h1, List.lookup, ih]
  simp [Header.Del, Header.Get, hf]

theorem join_eq_intercalate (elems : List Str) (sep : Str) :
    Join elems sep = List.intercalate sep elems := by
  cases elems with
  | nil => rfl
  | cons e es =>
    simp only [Join]
    induction es generalizing e with
    | nil => simp [List.intercalate, List.intersperse]
    | cons x xs ih =>
      rw [List.foldl_cons, ih]
      cases xs <;> simp [List.intercalate, List.intersperse]


theorem notFound_status (w : ResponseWriter) (req : Request) :
    (NotFound w req).status = some (w.status.getD 404) := by
  cases hw : w.status <;>
    simp [NotFound, Error, ResponseWriter.Write, ResponseWriter.WriteHeader, hw]

theorem notFound_header_get (w : ResponseWriter) (req : Request) (k : Str)
    (h1 : k ≠ "Content-Length".toList) (h2 : k ≠ "Content-Type".toList)
    (h3 : k ≠ "X-Content-Type-Options".toList) :
    (NotFound w req).header.Get k = w.header.Get k := by
  have hh : (NotFound w req).header =
      ((w.header.Del "Content-Length".toList).Set "Content-Type".toList
        "text/plain; charset=utf-8".toList).Set "X-Content-Type-Options".toList
        "nosniff".toList := by
    simp only [NotFound, Error, ResponseWriter.Write, ResponseWriter.WriteHeader]
    split <;> rfl
  rw [hh, header_get_set_ne _ _ _ _ h3, header_get_set_ne _ _ _ _ h2, header_get_del_ne _ _ _ h1]

theorem serveHTTP_no_match (router : Router) (w : ResponseWriter) (req : Request)
    (h : ∀ route ∈ router.Routes, ¬ route.Matches req) :
    router.ServeHTTP w req = NotFound w req := by
  have h1 := serveRoutes_skip router.Domains router.Routes [] w req h
  rw [List.append_nil] at h1
  rw [Router.ServeHTTP, h1, serveRoutes]

theorem serveHTTP_first_match (router : Router) (w : ResponseWriter) (req : Request)
    (pre : List Route) (route : Route) (post : List Route) (vars : PathVars)
    (hr : router.Routes = pre ++ route :: post)
    (hpre : ∀ r ∈ pre, ¬ r.Matches req)
    (hm : route.Method = req.Method)
    (hv : matchPath route.Path req.URLPath = some vars) :
    router.ServeHTTP w req =
      if req.Method = "OPTIONS".toList then (setCORS w router.Domains).WriteHeader 200
      else route.Handler (setCORS w router.Domains) (attachVars req vars) := by
  rw [Router.ServeHTTP, hr, serveRoutes_skip _ _ _ _ _ hpre, serveRoutes_hit _ _ _ _ _ _ hm hv]

theorem setCORS_get (w : ResponseWriter) (domains : List Str) :
    (setCORS w domains).header.Get "Access-Control-Allow-Origin".toList = Join domains ",".toList ∧
    (setCORS w domains).header.Get "Access-Control-Allow-Methods".toList =
      "GET, POST, PUT, DELETE, OPTIONS".toList ∧
    (setCORS w domains).header.Get "Access-Control-Allow-Headers".toList =
      "Origin, Content-Type, Accept".toList := by
  refine ⟨?_, ?_, ?_⟩
  · simp only [setCORS]
    rw [header_get_set_ne _ _ _ _ (by decide), header_get_set_ne _ _ _ _ (by decide),
      header_get_set]
  · simp only [setCORS]
    rw [header_get_set_ne _ _ _ _ (by decide), header_get_set]
  · simp only [setCORS]
    rw [header_get_set]


/-! ## Claims -/

/-- C1, evaluated at the input of `TestServeHTTP`: `AddRoute("GET",
"/books/{id}", bookHandler)` on the test's router gives `booksRouter`, whose
pattern is the escaped literal text of the template. For the request
`GET /books/1` the pattern does not match (`matchPath` returns nil) and
`ServeHTTP` answers with `http.NotFound`: status 404 and the not-found body,
where the claim and the test expect the variables `{id: "1"}` and the body
"Book 1". -/
theorem books_placeholder_not_matched :
    (NewRouter ["example.com".toList]).AddRoute "GET".toList "/books/\x7bid\x7d".toList
        bookHandler = some booksRouter ∧
      (booksRouter.Routes.map fun route => matchPath route.Path "/books/1".toList) = [none] ∧
      booksRouter.ServeHTTP NewRecorder (NewRequest "GET".toList "/books/1".toList) =
        NotFound NewRecorder (NewRequest "GET".toList "/books/1".toList) ∧
      (booksRouter.ServeHTTP NewRecorder (NewRequest "GET".toList "/books/1".toList)).status =
        some 404 ∧
      (booksRouter.ServeHTTP NewRecorder (NewRequest "GET".toList "/books/1".toList)).body =
        "404 page not found\n".toList := by
  have hn : matchPath (exactRegexp "/books/\x7bid\x7d".toList) "/books/1".toList = none := by
    rw [matchPath_exact]; decide
  have hs : booksRouter.ServeHTTP NewRecorder (NewRequest "GET".toList "/books/1".toList) =
      NotFound NewRecorder (NewRequest "GET".toList "/books/1".toList) := by
    apply serveHTTP_no_match
    intro route hr
    simp only [booksRouter, List.mem_singleton] at hr
    subst hr
    exact fun hm => hm.2 hn
  refine ⟨addRoute_eq _ _ _ _, ?_, hs, ?_, ?_⟩
  · simp only [booksRouter, List.map_cons, List.map_nil, hn]
  · rw [hs]; decide
  · rw [hs]; decide

/-- C2, counterexample: `AddRoute("OPTIONS", "/", helloHandler)` gives
`optionsRouter`; for the request `OPTIONS /` its route is the first (and only)
one whose method equals the request's and whose pattern matches the path, yet
its handler is not invoked: the body stays empty and the response differs
from what `helloHandler` produces. -/
theorem options_first_match_not_invoked :
    (NewRouter ["a".toList, "b".toList]).AddRoute "OPTIONS".toList "/".toList helloHandler =
        some optionsRouter ∧
      (optionsRouter.Routes.map fun route => (route.Method, matchPath route.Path "/".toList)) =
        [("OPTIONS".toList, some [])] ∧
      (optionsRouter.ServeHTTP NewRecorder (NewRequest "OPTIONS".toList "/".toList)).body = [] ∧
      optionsRouter.ServeHTTP NewRecorder (NewRequest "OPTIONS".toList "/".toList) ≠
        helloHandler (setCORS NewRecorder optionsRouter.Domains)
          (attachVars (NewRequest "OPTIONS".toList "/".toList) []) := by
  have hv : matchPath (exactRegexp "/".toList) "/".toList = some [] := by
    rw [matchPath_exact]; rfl
  have hs : optionsRouter.ServeHTTP NewRecorder (NewRequest "OPTIONS".toList "/".toList) =
      (setCORS NewRecorder optionsRouter.Domains).WriteHeader 200 := by
    rw [serveHTTP_first_match optionsRouter NewRecorder _ [] _ [] [] rfl (by simp) rfl hv]
    rfl
  refine ⟨addRoute_eq _ _ _ _, ?_, ?_, ?_⟩
  · simp only [optionsRouter, List.map_cons, List.map_nil, hv]
  · rw [hs]; decide
  · rw [hs]
    intro h
    have hb := congrArg ResponseWriter.body h
    revert hb
    decide

/-- C2, amended: whenever `route` is the first route in registration order
whose method equals the request's method and whose pattern matches the
request's path (the routes before it do not match), `ServeHTTP` is decided by
that route alone, whatever routes follow it: for a request whose method is not
"OPTIONS" the response is what that route's handler makes of the writer with
the CORS headers and the request with the captured variables; for an
"OPTIONS" request no handler runs and status 200 is written. -/
theorem first_match_wins (router : Router) (w : ResponseWriter) (req : Request)
    (pre : List Route) (route : Route) (post : List Route) (vars : PathVars)
    (hr : router.Routes = pre ++ route :: post)
    (hpre : ∀ r ∈ pre, ¬ (r.Method = req.Method ∧ matchPath r.Path req.URLPath ≠ none))
    (hm : route.Method = req.Method)
    (hv : matchPath route.Path req.URLPath = some vars) :
    router.ServeHTTP w req =
      if req.Method = "OPTIONS".toList then (setCORS w router.Domains).WriteHeader 200
      else route.Handler (setCORS w router.Domains) (attachVars req vars) :=
  serveHTTP_first_match router w req pre route post vars hr hpre hm hv

/-- Witness for `first_match_wins`: in `overlapRouter` both `GET` routes match
`/users`; the earlier one (the one-segment pattern) wins although the later is
the literal path, and its handler gets `id = "users"`. -/
theorem first_match_wins_witness :
    matchPath idRegexp "/users".toList = some [("id".toList, "users".toList)] ∧
    matchPath (exactRegexp "/users".toList) "/users".toList = some [] ∧
    overlapRouter.ServeHTTP NewRecorder (NewRequest "GET".toList "/users".toList) =
      bookHandler (setCORS NewRecorder overlapRouter.Domains)
        (attachVars (NewRequest "GET".toList "/users".toList)
          [("id".toList, "users".toList)]) ∧
    (overlapRouter.ServeHTTP NewRecorder (NewRequest "GET".toList "/users".toList)).body =
      "Book users".toList :=
  have h := first_match_wins overlapRouter NewRecorder (NewRequest "GET".toList "/users".toList)
    [] ⟨"GET".toList, idRegexp, bookHandler⟩
    [⟨"GET".toList, exactRegexp "/users".toList, helloHandler⟩]
    [("id".toList, "users".toList)] rfl (by simp) rfl (by decide)
  ⟨by decide, by decide, h, by rw [h]; decide⟩

/-- C3: for every template `T` (so in particular for every template with zero
placeholders, the root template "/" included), `AddRoute` succeeds and
appends a route whose compiled pattern matches a path `p` if and only if
`p = T`; on a match `matchPath` returns the empty, non-nil mapping. In
particular `T` matches `T` and `T + "/x"` does not match. -/
theorem literal_template_matches_exactly (router : Router) (method T : Str)
    (handler : HandlerFunc) :
    ∃ re : Regexp,
      router.AddRoute method T handler =
        some { router with Routes := router.Routes ++ [⟨method, re, handler⟩] } ∧
      (∀ p : Str, matchPath re p ≠ none ↔ p = T) ∧
      (∀ p : Str, matchPath re p = if p = T then some [] else none) ∧
      matchPath re T = some [] ∧
      matchPath re (T ++ "/x".toList) = none := by
  refine ⟨exactRegexp T, addRoute_eq _ _ _ _, ?_, matchPath_exact T, ?_, ?_⟩
  · intro p
    rw [matchPath_exact]
    by_cases h : p = T <;> simp [h]
  · rw [matchPath_exact, if_pos rfl]
  · rw [matchPath_exact, if_neg]
    intro h
    have hl := congrArg List.length h
    simp at hl

/-- C4: for every template "/" + segment + "/{" + name + "}" and every string
`s` (so in particular every `s` without '/'), `AddRoute` compiles a pattern
that does not match "/" + segment + "/" + s + "/extra": `matchPath` returns
nil. -/
theorem no_prefix_match (router : Router) (method segment name s : Str)
    (handler : HandlerFunc) :
    ∃ re : Regexp,
      router.AddRoute method
          ("/".toList ++ segment ++ "/\x7b".toList ++ name ++ "\x7d".toList) handler =
        some { router with Routes := router.Routes ++ [⟨method, re, handler⟩] } ∧
      matchPath re ("/".toList ++ segment ++ "/".toList ++ s ++ "/extra".toList) = none := by
  refine ⟨_, addRoute_eq _ _ _ _, ?_⟩
  rw [matchPath_exact, if_neg]
  intro h
  have hl := congrArg (fun l : Str => l.reverse.head?) h
  simp at hl

/-- C5: if no route has both a method equal to the request's method and a
pattern matching the request's path, `ServeHTTP` does exactly what
`http.NotFound` does, whatever the handlers are (none is invoked); the status
is 404 unless the writer already carried a status. -/
theorem no_match_not_found (router : Router) (w : ResponseWriter) (req : Request)
    (h : ∀ route ∈ router.Routes,
      ¬ (route.Method = req.Method ∧ matchPath route.Path req.URLPath ≠ none)) :
    router.ServeHTTP w req = NotFound w req ∧
    (router.ServeHTTP w req).status = some (w.status.getD 404) := by
  have hs := serveHTTP_no_match router w req h
  exact ⟨hs, by rw [hs]; exact notFound_status w req⟩

/-- Witness for `no_match_not_found`: `GET /books` on `booksRouter`, where only
`GET /books/{id}` is registered. -/
theorem no_match_not_found_witness :
    (booksRouter.Routes.map fun route => matchPath route.Path "/books".toList) = [none] ∧
    booksRouter.ServeHTTP NewRecorder (NewRequest "GET".toList "/books".toList) =
      NotFound NewRecorder (NewRequest "GET".toList "/books".toList) ∧
    (booksRouter.ServeHTTP NewRecorder (NewRequest "GET".toList "/books".toList)).status =
      some 404 :=
  have hn : matchPath (exactRegexp "/books/\x7bid\x7d".toList) "/books".toList = none := by
    rw [matchPath_exact]; decide
  have h := no_match_not_found booksRouter NewRecorder (NewRequest "GET".toList "/books".toList)
    (by
      intro route hr
      simp only [booksRouter, List.mem_singleton] at hr
      subst hr
      exact fun hm => hm.2 hn)
  ⟨by simp only [booksRouter, List.map_cons, List.map_nil, hn], h.1, h.2⟩

/-- C6, counterexample: `AddRoute("GET", "/books/{id", bookHandler)`, a
template of valid text with an unterminated brace, does not fail: it returns
a router with one more route. -/
theorem unterminated_brace_is_registered :
    ∃ router : Router,
      (NewRouter []).AddRoute "GET".toList "/books/\x7bid".toList bookHandler = some router ∧
      router.Routes.length = 1 :=
  ⟨_, addRoute_eq _ _ _ _, rfl⟩

/-- C6, amended: for every template that is valid text (every `Str`), whatever
its placeholder syntax, so in particular for one with an unterminated brace
such as "/books/{id", `AddRoute` does not fail at registration: it appends
exactly one route, whose pattern matches the template's own text. Templates
that are not valid UTF-8 are not covered. -/
theorem text_template_is_registered (router : Router) (method T : Str)
    (handler : HandlerFunc) :
    ∃ re : Regexp,
      router.AddRoute method T handler =
        some { Routes := router.Routes ++ [⟨method, re, handler⟩], Domains := router.Domains } ∧
      matchPath re T = some [] :=
  ⟨exactRegexp T, addRoute_eq _ _ _ _, by rw [matchPath_exact, if_pos rfl]⟩

/-- C7: for every list of domains, after `setCORS` the header
`Access-Control-Allow-Origin` is the domains joined by "," (two origins `a`,
`b` give `a + "," + b`, the empty list gives the empty string),
`Access-Control-Allow-Methods` is "GET, POST, PUT, DELETE, OPTIONS" and
`Access-Control-Allow-Headers` is "Origin, Content-Type, Accept". -/
theorem setCORS_headers (w : ResponseWriter) (domains : List Str) :
    (setCORS w domains).header.Get "Access-Control-Allow-Origin".toList =
      List.intercalate ",".toList domains ∧
    (setCORS w domains).header.Get "Access-Control-Allow-Methods".toList =
      "GET, POST, PUT, DELETE, OPTIONS".toList ∧
    (setCORS w domains).header.Get "Access-Control-Allow-Headers".toList =
      "Origin, Content-Type, Accept".toList ∧
    (∀ a b : Str,
      (setCORS w [a, b]).header.Get "Access-Control-Allow-Origin".toList =
        a ++ ",".toList ++ b) ∧
    (setCORS w []).header.Get "Access-Control-Allow-Origin".toList = [] := by
  refine ⟨?_, (setCORS_get w domains).2.1, (setCORS_get w domains).2.2, ?_, ?_⟩
  · rw [(setCORS_get w domains).1, join_eq_intercalate]
  · intro a b
    rw [(setCORS_get w [a, b]).1]
    simp [Join]
  · rw [(setCORS_get w []).1]
    rfl

/-- C8: if some route has the request's method and a pattern matching the
request's path, then `ServeHTTP` first sets the three CORS headers and only
then, on the writer that carries them, either invokes the matched route's
handler (method other than "OPTIONS") or writes status 200 (method
"OPTIONS"); writing the status leaves the headers in place. The three values
are functions of the router's `Domains` alone. -/
theorem cors_set_before_handler (router : Router) (w : ResponseWriter) (req : Request)
    (h : ∃ route ∈ router.Routes,
      route.Method = req.Method ∧ matchPath route.Path req.URLPath ≠ none) :
    (∃ route ∈ router.Routes, ∃ vars : PathVars,
      route.Method = req.Method ∧ matchPath route.Path req.URLPath = some vars ∧
      router.ServeHTTP w req =
        if req.Method = "OPTIONS".toList then (setCORS w router.Domains).WriteHeader 200
        else route.Handler (setCORS w router.Domains) (attachVars req vars)) ∧
    ((setCORS w router.Domains).WriteHeader 200).header = (setCORS w router.Domains).header ∧
    (setCORS w router.Domains).header.Get "Access-Control-Allow-Origin".toList =
      List.intercalate ",".toList router.Domains ∧
    (setCORS w router.Domains).header.Get "Access-Control-Allow-Methods".toList =
      "GET, POST, PUT, DELETE, OPTIONS".toList ∧
    (setCORS w router.Domains).header.Get "Access-Control-Allow-Headers".toList =
      "Origin, Content-Type, Accept".toList := by
  obtain ⟨pre, route, post, hr, hm, hpre⟩ := exists_first_match router.Routes req h
  obtain ⟨hg1, hg2, hg3⟩ := setCORS_get w router.Domains
  refine ⟨?_, ?_, by rw [hg1, join_eq_intercalate], hg2, hg3⟩
  · obtain ⟨vars, hv⟩ := Option.ne_none_iff_exists'.1 hm.2
    exact ⟨route, by rw [hr]; simp, vars, hm.1, hv,
      serveHTTP_first_match router w req pre route post vars hr hpre hm.1 hv⟩
  · simp only [ResponseWriter.WriteHeader]
    split <;> rfl

/-- Witness for `cors_set_before_handler`: `OPTIONS /` on `optionsRouter`, whose
domains are `a` and `b`: the response carries `Access-Control-Allow-Origin:
a,b`. -/
theorem cors_set_before_handler_witness :
    (optionsRouter.Routes.map fun route => (route.Method, matchPath route.Path "/".toList)) =
      [("OPTIONS".toList, some [])] ∧
    (setCORS NewRecorder optionsRouter.Domains).header.Get
        "Access-Control-Allow-Origin".toList = List.intercalate ",".toList optionsRouter.Domains ∧
    List.intercalate ",".toList optionsRouter.Domains = "a,b".toList :=
  have hv : matchPath (exactRegexp "/".toList) "/".toList = some [] := by
    rw [matchPath_exact]; rfl
  ⟨by simp only [optionsRouter, List.map_cons, List.map_nil, hv],
   (cors_set_before_handler optionsRouter NewRecorder (NewRequest "OPTIONS".toList "/".toList)
    ⟨⟨"OPTIONS".toList, exactRegexp "/".toList, helloHandler⟩, by simp [optionsRouter], rfl,
      fun hc => Option.noConfusion (hv.symm.trans hc)⟩).2.2.1,
   by decide⟩

/-- C9: for a request whose method is "OPTIONS", if some route registered with
method "OPTIONS" matches the path, `ServeHTTP` sets the CORS headers and
writes status 200, whatever the handlers are (none is invoked): nothing is
added to the body, and the status is 200 unless the writer already carried a
status. -/
theorem options_short_circuit (router : Router) (w : ResponseWriter) (req : Request)
    (hm : req.Method = "OPTIONS".toList)
    (h : ∃ route ∈ router.Routes,
      route.Method = "OPTIONS".toList ∧ matchPath route.Path req.URLPath ≠ none) :
    router.ServeHTTP w req = (setCORS w router.Domains).WriteHeader 200 ∧
    (router.ServeHTTP w req).body = w.body ∧
    (router.ServeHTTP w req).status = some (w.status.getD 200) := by
  have h2 : ∃ route ∈ router.Routes, route.Matches req := by
    obtain ⟨route, hr, hmr, hp⟩ := h
    exact ⟨route, hr, hmr.trans hm.symm, hp⟩
  obtain ⟨pre, route, post, hr, hmt, hpre⟩ := exists_first_match router.Routes req h2
  obtain ⟨vars, hv⟩ := Option.ne_none_iff_exists'.1 hmt.2
  have hs := serveHTTP_first_match router w req pre route post vars hr hpre hmt.1 hv
  rw [if_pos hm] at hs
  refine ⟨hs, ?_, ?_⟩
  · rw [hs]
    simp only [ResponseWriter.WriteHeader, setCORS]
    split <;> rfl
  · rw [hs]
    cases hw : w.status <;> simp [ResponseWriter.WriteHeader, setCORS, hw]

/-- Witness for `options_short_circuit`: `OPTIONS /` on `optionsRouter`. -/
theorem options_short_circuit_witness :
    optionsRouter.ServeHTTP NewRecorder (NewRequest "OPTIONS".toList "/".toList) =
        (setCORS NewRecorder optionsRouter.Domains).WriteHeader 200 ∧
      (optionsRouter.ServeHTTP NewRecorder (NewRequest "OPTIONS".toList "/".toList)).body =
        [] ∧
      (optionsRouter.ServeHTTP NewRecorder (NewRequest "OPTIONS".toList "/".toList)).status =
        some 200 :=
  options_short_circuit optionsRouter NewRecorder (NewRequest "OPTIONS".toList "/".toList) rfl
    ⟨⟨"OPTIONS".toList, exactRegexp "/".toList, helloHandler⟩, by simp [optionsRouter], rfl,
      by rw [matchPath_exact]; decide⟩

/-- C10: for a request whose method is "OPTIONS", if no route registered with
method "OPTIONS" matches the path, `ServeHTTP` does exactly what
`http.NotFound` does: the status is 404 (not 200) unless the writer already
carried a status, and each of the three CORS headers keeps the value it had
before the call. -/
theorem options_without_options_route (router : Router) (w : ResponseWriter) (req : Request)
    (hm : req.Method = "OPTIONS".toList)
    (h : ∀ route ∈ router.Routes,
      ¬ (route.Method = "OPTIONS".toList ∧ matchPath route.Path req.URLPath ≠ none)) :
    router.ServeHTTP w req = NotFound w req ∧
    (router.ServeHTTP w req).status = some (w.status.getD 404) ∧
    (router.ServeHTTP w req).header.Get "Access-Control-Allow-Origin".toList =
      w.header.Get "Access-Control-Allow-Origin".toList ∧
    (router.ServeHTTP w req).header.Get "Access-Control-Allow-Methods".toList =
      w.header.Get "Access-Control-Allow-Methods".toList ∧
    (router.ServeHTTP w req).header.Get "Access-Control-Allow-Headers".toList =
      w.header.Get "Access-Control-Allow-Headers".toList := by
  have hs : router.ServeHTTP w req = NotFound w req :=
    serveHTTP_no_match router w req fun route hr hmt => h route hr ⟨hmt.1.trans hm, hmt.2⟩
  refine ⟨hs, by rw [hs]; exact notFound_status w req, ?_, ?_, ?_⟩ <;>
    rw [hs] <;> exact notFound_header_get w req _ (by decide) (by decide) (by decide)

/-- Witness for `options_without_options_route`: `OPTIONS /users` on
`overlapRouter`, where `/users` is registered under `GET` only. -/
theorem options_without_options_route_witness :
    overlapRouter.ServeHTTP NewRecorder (NewRequest "OPTIONS".toList "/users".toList) =
        NotFound NewRecorder (NewRequest "OPTIONS".toList "/users".toList) ∧
      (overlapRouter.ServeHTTP NewRecorder (NewRequest "OPTIONS".toList "/users".toList)).status =
        some 404 ∧
      (overlapRouter.ServeHTTP NewRecorder
        (NewRequest "OPTIONS".toList "/users".toList)).header.Get
          "Access-Control-Allow-Origin".toList = [] :=
  have h := options_without_options_route overlapRouter NewRecorder
    (NewRequest "OPTIONS".toList "/users".toList) rfl
    (by
      intro route hr hmt
      simp only [overlapRouter, List.mem_cons, List.mem_singleton, List.not_mem_nil,
        or_false] at hr
      rcases hr with hr | hr <;> subst hr <;> exact absurd hmt.1 (by decide))
  ⟨h.1, h.2.1, h.2.2.1⟩

/-! ## Further lemmas: duplicate routes, selection, path variables -/

theorem serveRoutes_append_congr (domains : List Str) (pre l1 l2 : List Route)
    (w : ResponseWriter) (req : Request)
    (h : serveRoutes domains l1 w req = serveRoutes domains l2 w req) :
    serveRoutes domains (pre ++ l1) w req = serveRoutes domains (pre ++ l2) w req := by
  induction pre with
  | nil => exact h
  | cons c pre ih => rw [List.cons_append, List.cons_append, serveRoutes, serveRoutes, ih]

theorem serveRoutes_append_of_match (domains : List Str) (pre l1 l2 : List Route)
    (w : ResponseWriter) (req : Request) (h : ∃ r ∈ pre, r.Matches req) :
    serveRoutes domains (pre ++ l1) w req = serveRoutes domains (pre ++ l2) w req := by
  obtain ⟨p, r, q, hr, hm, hp⟩ := exists_first_match pre req h
  obtain ⟨vars, hv⟩ := Option.ne_none_iff_exists'.1 hm.2
  rw [hr, List.append_assoc, List.append_assoc, List.cons_append, List.cons_append,
    serveRoutes_skip _ _ _ _ _ hp, serveRoutes_skip _ _ _ _ _ hp,
    serveRoutes_hit _ _ _ _ _ _ hm.1 hv, serveRoutes_hit _ _ _ _ _ _ hm.1 hv]

theorem serveRoutes_dead (domains : List Str) (pre : List Route) (a : Route) (mid : List Route)
    (b : Route) (post : List Route) (w : ResponseWriter) (req : Request)
    (hm : b.Method = a.Method) (hp : b.Path = a.Path) :
    serveRoutes domains (pre ++ [a] ++ mid ++ [b] ++ post) w req =
      serveRoutes domains (pre ++ [a] ++ mid ++ post) w req := by
  by_cases ha : a.Matches req
  · rw [List.append_assoc (pre ++ [a] ++ mid), List.append_assoc pre, List.append_assoc pre,
      List.append_assoc pre, List.append_assoc [a], List.append_assoc [a]]
    rw [← List.append_assoc pre, ← List.append_assoc pre [a] (mid ++ post)]
    exact serveRoutes_append_of_match _ _ _ _ _ _ ⟨a, by simp, ha⟩
  · have hb : ¬ b.Matches req := fun hb => ha ⟨hm ▸ hb.1, hp ▸ hb.2⟩
    rw [List.append_assoc (pre ++ [a] ++ mid)]
    apply serveRoutes_append_congr
    exact serveRoutes_skip domains [b] post w req (by
      intro r hr
      rw [List.mem_singleton] at hr
      subst hr
      exact hb)

theorem serveRoutes_eq_respond (domains : List Str) (routes : List Route) (w : ResponseWriter)
    (req : Request) :
    serveRoutes domains routes w req =
      respond domains (selectRoute routes req.Method req.URLPath) w req := by
  induction routes with
  | nil => rfl
  | cons r routes ih =>
    rw [serveRoutes, selectRoute, List.findSome?_cons]
    by_cases hm : req.Method = r.Method
    · cases hv : matchPath r.Path req.URLPath with
      | none =>
        simp only [hm, ne_eq, not_true_eq_false, if_false, if_true, hv, Option.map_none']
        rw [← hm, ih]
        rfl
      | some vars =>
        simp only [hm, ne_eq, not_true_eq_false, if_false, if_true, hv, Option.map_some',
          Option.some_orElse, respond]
    · have hm2 : ¬ r.Method = req.Method := fun h => hm h.symm
      simp only [hm, ne_eq, not_false_eq_true, if_true, hm2, if_false]
      rw [ih]
      rfl

theorem pathVars_set_absent (vars : PathVars) (key value : Str)
    (h : key ∉ vars.map Prod.fst) : vars.set key value = vars ++ [(key, value)] := by
  have hany : vars.any (fun e => e.1 == key) = false := by
    rw [List.any_eq_false]
    intro e he hk
    exact h (List.mem_map.2 ⟨e, he, by simpa using hk⟩)
  simp [PathVars.set, hany]

theorem foldl_named_groups (f : Nat → Str) (l : List Str) (k : Nat) (hk : 0 < k)
    (acc : PathVars) (hnd : (l.filter fun n => n ≠ []).Nodup)
    (hdis : ∀ n ∈ l, n ∉ acc.map Prod.fst) :
    (l.enumFrom k).foldl
        (fun vars e => if e.1 = 0 ∨ e.2 = [] then vars else PathVars.set vars e.2 (f e.1)) acc =
      acc ++ (l.enumFrom k).filterMap fun e => if e.2 = [] then none else some (e.2, f e.1) := by
  induction l generalizing k acc with
  | nil => simp
  | cons n l ih =>
    rw [List.enumFrom_cons, List.foldl_cons, List.filterMap_cons]
    have hk0 : k ≠ 0 := by omega
    by_cases hn : n = []
    · have hnd2 : (l.filter fun n => n ≠ []).Nodup := by
        simpa [List.filter, hn] using hnd
      simp only [hn, or_true, if_true]
      exact ih (k + 1) (by omega) acc hnd2 fun m hm => hdis m (List.mem_cons_of_mem _ hm)
    · have hf : (List.filter (fun n => decide (n ≠ [])) (n :: l)) =
          n :: List.filter (fun n => decide (n ≠ [])) l := by
        simp [List.filter, hn]
      rw [hf, List.nodup_cons] at hnd
      simp only [hk0, hn, or_self, if_false]
      rw [pathVars_set_absent _ _ _ (hdis n (List.mem_cons_self _ _)),
        ih (k + 1) (by omega) _ hnd.2]
      · simp
      · intro m hm hmem
        rw [List.map_append, List.mem_append] at hmem
        rcases hmem with h1 | h1
        · exact hdis m (List.mem_cons_of_mem _ hm) h1
        · simp only [List.map_cons, List.map_nil, List.mem_singleton] at h1
          subst h1
          exact hnd.1 (List.mem_filter.2 ⟨hm, by simpa using hn⟩)

theorem filterMap_shift (found : List Str) (g : Nat → Str) (l : List Str) (k : Nat)
    (h : ∀ i, i < k + l.length → found.getD (i + 1) [] = g i) :
    ((l.enumFrom (k + 1)).filterMap fun e =>
        if e.2 = [] then none else some (e.2, found.getD e.1 [])) =
      (l.enumFrom k).filterMap fun e => if e.2 = [] then none else some (e.2, g e.1) := by
  induction l generalizing k with
  | nil => rfl
  | cons n l ih =>
    rw [List.enumFrom_cons, List.enumFrom_cons, List.filterMap_cons, List.filterMap_cons,
      ih (k + 1) (by intro i hi; exact h i (by simp at hi ⊢; omega))]
    rw [h k (by simp)]

theorem matchPath_of_search (re : Regexp) (p : Str) (b e : Nat) (caps : List (Nat × Nat))
    (hs : search re.prog 0 p = some (b, e, caps))
    (hnd : ((re.SubexpNames.drop 1).filter fun n => n ≠ []).Nodup) :
    matchPath re p =
      some ((re.SubexpNames.drop 1).enum.filterMap fun e =>
        if e.2 = [] then none else some (e.2, groupText p caps e.1)) := by
  unfold matchPath Regexp.FindStringSubmatch
  rw [hs]
  simp only [List.length_cons, Nat.add_one_ne_zero, if_false, Regexp.SubexpNames] at hnd ⊢
  cases hn : re.subexpNames with
  | nil => simp [List.enum]
  | cons n0 rest =>
    rw [hn] at hnd
    simp only [List.drop_succ_cons, List.drop_zero] at hnd ⊢
    rw [List.enum, List.enumFrom_cons, List.foldl_cons]
    simp only [true_or, if_true, zero_add]
    rw [foldl_named_groups
      (fun i => ((List.take (e - b) (List.drop b p) ::
        List.map (groupText p caps) (List.range ((n0 :: rest).length - 1))).getD i []))
      rest 1 (by omega) [] hnd (by simp)]
    rw [List.nil_append]
    rw [filterMap_shift _ (groupText p caps) rest 0]
    intro i hi
    simp at hi
    simp [List.getD_eq_getElem?_getD, hi]

theorem matchPath_none_iff (re : Regexp) (p : Str) :
    matchPath re p = none ↔ search re.prog 0 p = none := by
  unfold matchPath Regexp.FindStringSubmatch
  cases hs : search re.prog 0 p with
  | none => simp
  | some r => simp

theorem lookup_of_mem_nodup {α β : Type} [DecidableEq α] (l : List (α × β))
    (hnd : (l.map Prod.fst).Nodup) (k : α) (v : β) (h : (k, v) ∈ l) : l.lookup k = some v := by
  induction l with
  | nil => simp at h
  | cons e l ih =>
    obtain ⟨a, b⟩ := e
    rw [List.map_cons, List.nodup_cons] at hnd
    rcases List.mem_cons.1 h with h1 | h1
    · cases h1
      simp
    · have hka : k ≠ a := by
        intro hka
        subst hka
        exact hnd.1 (List.mem_map.2 ⟨(k, v), h1, rfl⟩)
      have hb : (k == a) = false := by simpa using hka
      rw [List.lookup_cons, hb]
      exact ih hnd.2 h1

theorem attachVars_eq (req : Request) (vars : PathVars) :
    attachVars req vars =
      { req with
        ctx := (vars.map fun e => (CtxKey.pathVarName e.1, e.2)).reverse ++ req.ctx } := by
  unfold attachVars
  induction vars generalizing req with
  | nil => rfl
  | cons e vars ih =>
    rw [List.foldl_cons, ih]
    simp [Request.WithValue]

theorem attachVars_value_mem (req : Request) (vars : PathVars)
    (hnd : (vars.map Prod.fst).Nodup) (k v : Str) (h : (k, v) ∈ vars) :
    (attachVars req vars).Value (.pathVarName k) = some v := by
  rw [attachVars_eq, Request.Value]
  simp only
  rw [List.lookup_append]
  have hl : ((vars.map fun e => (CtxKey.pathVarName e.1, e.2)).reverse).lookup
      (CtxKey.pathVarName k) = some v := by
    apply lookup_of_mem_nodup
    · rw [List.map_reverse, List.nodup_reverse, List.map_map]
      have hc : (Prod.fst ∘ fun e : Str × Str => (CtxKey.pathVarName e.1, e.2)) =
          CtxKey.pathVarName ∘ Prod.fst := rfl
      rw [hc, ← List.map_map]
      exact hnd.map fun a b hab => by cases hab; rfl
    · rw [List.mem_reverse]
      exact List.mem_map.2 ⟨(k, v), h, rfl⟩
  rw [hl]
  rfl

theorem attachVars_value_other (req : Request) (vars : PathVars) (key : CtxKey)
    (h : ∀ k v, (k, v) ∈ vars → key ≠ .pathVarName k) :
    (attachVars req vars).Value key = req.Value key := by
  rw [attachVars_eq, Request.Value, Request.Value]
  simp only
  rw [List.lookup_append]
  have hl : ((vars.map fun e => (CtxKey.pathVarName e.1, e.2)).reverse).lookup key = none := by
    rw [List.lookup_eq_none_iff]
    intro p hp
    rw [List.mem_reverse, List.mem_map] at hp
    obtain ⟨e, he, rfl⟩ := hp
    simpa using h e.1 e.2 he
  rw [hl]
  rfl

theorem pathVars_set_keys (vars : PathVars) (key value : Str) :
    (vars.set key value).map Prod.fst =
      if key ∈ vars.map Prod.fst then vars.map Prod.fst else vars.map Prod.fst ++ [key] := by
  by_cases h : key ∈ vars.map Prod.fst
  · have hany : vars.any (fun e => e.1 == key) = true := by
      rw [List.any_eq_true]
      obtain ⟨e, he, hk⟩ := List.mem_map.1 h
      exact ⟨e, he, by simpa using hk⟩
    rw [if_pos h, PathVars.set, if_pos hany, List.map_map]
    apply List.map_congr_left
    intro e _
    by_cases hk : e.1 = key <;> simp [hk]
  · rw [if_neg h, pathVars_set_absent _ _ _ h]
    simp

theorem pathVars_set_nodup (vars : PathVars) (key value : Str)
    (hnd : (vars.map Prod.fst).Nodup) : ((vars.set key value).map Prod.fst).Nodup := by
  rw [pathVars_set_keys]
  by_cases h : key ∈ vars.map Prod.fst
  · rw [if_pos h]; exact hnd
  · rw [if_neg h]
    exact List.Nodup.append hnd (List.nodup_singleton _) (by
      intro a ha hb
      rw [List.mem_singleton] at hb
      subst hb
      exact h ha)

theorem matchPath_nodup (re : Regexp) (p : Str) (vars : PathVars)
    (h : matchPath re p = some vars) : (vars.map Prod.fst).Nodup := by
  unfold matchPath at h
  simp only at h
  split at h
  · cases h
  · cases h
    generalize re.SubexpNames.enum = l
    have hg : ∀ (l : List (Nat × Str)) (acc : PathVars), (acc.map Prod.fst).Nodup →
        ((l.foldl (fun vars e => if e.1 = 0 ∨ e.2 = [] then vars
          else PathVars.set vars e.2 ((re.FindStringSubmatch p).getD e.1 [])) acc).map
            Prod.fst).Nodup := by
      intro l
      induction l with
      | nil => intro acc ha; exact ha
      | cons e l ih =>
        intro acc ha
        rw [List.foldl_cons]
        apply ih
        split
        · exact ha
        · exact pathVars_set_nodup _ _ _ ha
    exact hg l [] (by simp)

theorem filterMap_named_keys (g : Nat → Str) (l : List Str) (k : Nat) :
    ((l.enumFrom k).filterMap fun e =>
        if e.2 = [] then none else some (e.2, g e.1)).map Prod.fst =
      l.filter fun n => n ≠ [] := by
  induction l generalizing k with
  | nil => rfl
  | cons n l ih =>
    rw [List.enumFrom_cons, List.filterMap_cons]
    by_cases hn : n = []
    · simp only [hn, if_true]
      rw [ih]
      simp [List.filter]
    · simp only [hn, if_false, List.map_cons]
      rw [ih]
      simp [List.filter, hn]

/-! ## Claims on registration, determinism and path variables -/

/-- C11: for every router and every method, template and handler, `AddRoute`
appends exactly one route carrying that method and handler to the end of the
route list: the list grows by one, the routes registered before are its
unchanged prefix, and `Domains` is unchanged. Registering the same method and
template again appends one more route in the same way. -/
theorem addRoute_appends_one (router : Router) (method T : Str) (handler handler2 : HandlerFunc) :
    ∃ re : Regexp, ∃ router2 router3 : Router,
      router.AddRoute method T handler = some router2 ∧
      router2.Routes = router.Routes ++ [⟨method, re, handler⟩] ∧
      router2.Routes.length = router.Routes.length + 1 ∧
      router2.Routes.take router.Routes.length = router.Routes ∧
      router2.Domains = router.Domains ∧
      router2.AddRoute method T handler2 = some router3 ∧
      router3.Routes = router.Routes ++ [⟨method, re, handler⟩, ⟨method, re, handler2⟩] ∧
      router3.Domains = router.Domains := by
  refine ⟨exactRegexp T, _, _, addRoute_eq _ _ _ _, rfl, by simp, by simp, rfl,
    addRoute_eq _ _ _ _, by simp, rfl⟩

/-- C12: when the same method and template are registered twice with
`AddRoute`, whatever routes are registered in between (`mid`) and afterwards
(`post`), the second registration changes no response: for every writer and
request `ServeHTTP` answers as it does without the second route, so the
second handler is never invoked. -/
theorem duplicate_route_is_dead (router : Router) (method T : Str) (h1 h2 : HandlerFunc)
    (mid post : List Route) :
    ∃ re : Regexp,
      router.AddRoute method T h1 =
        some { Routes := router.Routes ++ [⟨method, re, h1⟩], Domains := router.Domains } ∧
      Router.AddRoute
          { Routes := router.Routes ++ [⟨method, re, h1⟩] ++ mid, Domains := router.Domains }
          method T h2 =
        some { Routes := router.Routes ++ [⟨method, re, h1⟩] ++ mid ++ [⟨method, re, h2⟩],
               Domains := router.Domains } ∧
      ∀ (w : ResponseWriter) (req : Request),
        Router.ServeHTTP
            { Routes := router.Routes ++ [⟨method, re, h1⟩] ++ mid ++ [⟨method, re, h2⟩] ++ post,
              Domains := router.Domains } w req =
          Router.ServeHTTP
            { Routes := router.Routes ++ [⟨method, re, h1⟩] ++ mid ++ post,
              Domains := router.Domains } w req := by
  refine ⟨exactRegexp T, addRoute_eq _ _ _ _, addRoute_eq _ _ _ _, ?_⟩
  intro w req
  exact serveRoutes_dead _ _ _ _ _ _ _ _ rfl rfl

/-- C13: the response of `ServeHTTP` to a request is `respond` applied to the
route and variables that `selectRoute` picks from the route list, the
request's method and its path alone. So two requests with the same method and
the same path, whatever their contexts, headers and bodies, select the same
route (or both none) and get the same captured variables; and as the model
is a function, repeating a dispatch repeats the selection. -/
theorem dispatch_depends_on_method_and_path (router : Router) (w : ResponseWriter)
    (method path : Str) (ctx1 ctx2 : List (CtxKey × Str)) (hdr1 hdr2 : List (Str × Str))
    (body1 body2 : Str) :
    router.ServeHTTP w ⟨method, path, ctx1, hdr1, body1⟩ =
        respond router.Domains (selectRoute router.Routes method path) w
          ⟨method, path, ctx1, hdr1, body1⟩ ∧
      router.ServeHTTP w ⟨method, path, ctx2, hdr2, body2⟩ =
        respond router.Domains (selectRoute router.Routes method path) w
          ⟨method, path, ctx2, hdr2, body2⟩ :=
  ⟨serveRoutes_eq_respond _ _ _ _, serveRoutes_eq_respond _ _ _ _⟩

/-- C14: for every compiled pattern whose group names (the unnamed ones
aside) are pairwise distinct and every path `p`, `matchPath` returns nil
exactly when the pattern has no match in `p`; when the search finds a match
with capture slots `caps`, it returns the map that holds, for every named
group and for no other key, the text the group captured (unnamed groups and
the whole match are left out). For the pattern of `TestMatchPath`,
"/users/123/blog/456" gives `{id: "123", blog_id: "456"}`, and
"/users/abc/blog/def" and "/articles/123" give nil. -/
theorem matchPath_named_groups (re : Regexp) (p : Str)
    (hnd : ((re.SubexpNames.drop 1).filter fun n => n ≠ []).Nodup) :
    (matchPath re p = none ↔ search re.prog 0 p = none) ∧
    (∀ b e caps, search re.prog 0 p = some (b, e, caps) →
      matchPath re p =
        some ((re.SubexpNames.drop 1).enum.filterMap fun e =>
          if e.2 = [] then none else some (e.2, groupText p caps e.1))) ∧
    (∀ vars, matchPath re p = some vars →
      vars.map Prod.fst = (re.SubexpNames.drop 1).filter fun n => n ≠ []) ∧
    MustCompile "^/users/(?P<id>[0-9]+)/blog/(?P<blog_id>[0-9]+)$".toList =
      some usersBlogRegexp ∧
    matchPath usersBlogRegexp "/users/123/blog/456".toList =
      some [("id".toList, "123".toList), ("blog_id".toList, "456".toList)] ∧
    matchPath usersBlogRegexp "/users/abc/blog/def".toList = none ∧
    matchPath usersBlogRegexp "/articles/123".toList = none := by
  refine ⟨matchPath_none_iff re p, fun b e caps hs => matchPath_of_search re p b e caps hs hnd,
    ?_, by decide, by decide, by decide, by decide⟩
  intro vars hv
  cases hs : search re.prog 0 p with
  | none => rw [(matchPath_none_iff re p).2 hs] at hv; cases hv
  | some r =>
    obtain ⟨b, e, caps⟩ := r
    rw [matchPath_of_search re p b e caps hs hnd] at hv
    cases hv
    exact filterMap_named_keys _ _ _

/-- Witness for `matchPath_named_groups`: the pattern of `TestMatchPath` has the
distinct names `id` and `blog_id`; on "/users/123/blog/456" the search
matches the whole path and `matchPath` returns both variables. -/
theorem matchPath_named_groups_witness :
    ((usersBlogRegexp.SubexpNames.drop 1).filter fun n => n ≠ []) =
      ["id".toList, "blog_id".toList] ∧
    search usersBlogRegexp.prog 0 "/users/123/blog/456".toList =
      some (0, 19, [(5, 19), (4, 16), (3, 10), (2, 7)]) ∧
    matchPath usersBlogRegexp "/users/123/blog/456".toList =
      some [("id".toList, groupText "/users/123/blog/456".toList
          [(5, 19), (4, 16), (3, 10), (2, 7)] 0),
        ("blog_id".toList, groupText "/users/123/blog/456".toList
          [(5, 19), (4, 16), (3, 10), (2, 7)] 1)] :=
  ⟨by decide, by decide,
    (matchPath_named_groups usersBlogRegexp "/users/123/blog/456".toList (by decide)).2.1
      0 19 [(5, 19), (4, 16), (3, 10), (2, 7)] (by decide)⟩

/-- C15: for every list of domains, `NewRouter` returns a router whose
`Domains` is that list as given and whose route list is empty (so every
request is answered with `http.NotFound`). -/
theorem newRouter_fields (domains : List Str) (w : ResponseWriter) (req : Request) :
    (NewRouter domains).Domains = domains ∧
    (NewRouter domains).Routes = [] ∧
    (NewRouter domains).ServeHTTP w req = NotFound w req :=
  ⟨rfl, rfl, rfl⟩

/-- C16, evaluated at the input of `TestServeHTTP`: `AddRoute("POST",
"^/users$", ...)` and `AddRoute("PUT", "^/users/(?P<id>[0-9]+)$", ...)` give
`usersRouter`, whose patterns are the escaped literal texts of the two
expressions. Neither pattern matches "/users" or "/users/123", so `POST
/users` and `PUT /users/123` are answered with `http.NotFound` (status 404),
where the claim and the test expect "User created" and "Updating user 123".
Compiled as they are, the two expressions do match these paths. -/
theorem regex_paths_not_served :
    (((NewRouter ["example.com".toList]).AddRoute "POST".toList "^/users$".toList
        userCreatedHandler).bind fun r =>
      r.AddRoute "PUT".toList "^/users/(?P<id>[0-9]+)$".toList updateUserHandler) =
        some usersRouter ∧
    (usersRouter.Routes.map fun route => matchPath route.Path "/users".toList) = [none, none] ∧
    (usersRouter.Routes.map fun route => matchPath route.Path "/users/123".toList) =
      [none, none] ∧
    usersRouter.ServeHTTP NewRecorder (NewRequest "POST".toList "/users".toList) =
      NotFound NewRecorder (NewRequest "POST".toList "/users".toList) ∧
    usersRouter.ServeHTTP NewRecorder (NewRequest "PUT".toList "/users/123".toList) =
      NotFound NewRecorder (NewRequest "PUT".toList "/users/123".toList) ∧
    (NotFound NewRecorder (NewRequest "POST".toList "/users".toList)).status = some 404 ∧
    ((MustCompile "^/users$".toList).map fun re => matchPath re "/users".toList) =
      some (some []) ∧
    ((MustCompile "^/users/(?P<id>[0-9]+)$".toList).map fun re =>
      matchPath re "/users/123".toList) = some (some [("id".toList, "123".toList)]) := by
  have h1 : matchPath (exactRegexp "^/users$".toList) "/users".toList = none := by
    rw [matchPath_exact]; decide
  have h2 : matchPath (exactRegexp "^/users/(?P<id>[0-9]+)$".toList) "/users".toList = none := by
    rw [matchPath_exact]; decide
  have h3 : matchPath (exactRegexp "^/users$".toList) "/users/123".toList = none := by
    rw [matchPath_exact]; decide
  have h4 : matchPath (exactRegexp "^/users/(?P<id>[0-9]+)$".toList) "/users/123".toList =
      none := by
    rw [matchPath_exact]; decide
  refine ⟨?_, ?_, ?_, ?_, ?_, by decide, by decide, by decide⟩
  · rw [addRoute_eq, Option.some_bind, addRoute_eq]
    rfl
  · simp only [usersRouter, List.map_cons, List.map_nil, h1, h2]
  · simp only [usersRouter, List.map_cons, List.map_nil, h3, h4]
  · apply serveHTTP_no_match
    intro route hr hm
    simp only [usersRouter, List.mem_cons, List.mem_singleton, List.not_mem_nil,
      or_false] at hr
    rcases hr with hr | hr <;> subst hr
    · exact hm.2 h1
    · exact hm.2 h2
  · apply serveHTTP_no_match
    intro route hr hm
    simp only [usersRouter, List.mem_cons, List.mem_singleton, List.not_mem_nil,
      or_false] at hr
    rcases hr with hr | hr <;> subst hr
    · exact hm.2 h3
    · exact hm.2 h4

/-- C17, evaluated at the claim's example: for the template "/books/{id}",
`createRegexPattern` returns `^/books/\{id\}$`, the escaped literal text, and
not `^/books/(?P<id>[^/]+)$`. -/
theorem books_template_compiles_to_literal :
    createRegexPattern "/books/\x7bid\x7d".toList = some "^/books/\\\x7bid\\\x7d$".toList ∧
    createRegexPattern "/books/\x7bid\x7d".toList ≠ some "^/books/(?P<id>[^/]+)$".toList := by
  rw [createRegexPattern_eq]
  exact ⟨by decide, by decide⟩

/-- C18: for a request whose method is not "OPTIONS" and whose first matching
route is `route`, with captured variables `vars`, `ServeHTTP` is one call of
that route's handler on the writer with the CORS headers and on a request
whose context returns `vars[k]` under every key `pathVarName(k)` of `vars`
and the original context's value under every other key, the other fields of
the request being unchanged; the response is what that call returns. The
context does not depend on the order in which the variables are added. -/
theorem handler_gets_path_variables (router : Router) (w : ResponseWriter) (req : Request)
    (pre : List Route) (route : Route) (post : List Route) (vars : PathVars)
    (hr : router.Routes = pre ++ route :: post)
    (hpre : ∀ r ∈ pre, ¬ (r.Method = req.Method ∧ matchPath r.Path req.URLPath ≠ none))
    (hm : route.Method = req.Method)
    (hv : matchPath route.Path req.URLPath = some vars)
    (hne : req.Method ≠ "OPTIONS".toList) :
    router.ServeHTTP w req = route.Handler (setCORS w router.Domains) (attachVars req vars) ∧
    (∀ k v, (k, v) ∈ vars → (attachVars req vars).Value (.pathVarName k) = some v) ∧
    (∀ key, (∀ k v, (k, v) ∈ vars → key ≠ .pathVarName k) →
      (attachVars req vars).Value key = req.Value key) ∧
    (attachVars req vars).Method = req.Method ∧
    (attachVars req vars).URLPath = req.URLPath ∧
    (attachVars req vars).Header = req.Header ∧
    (attachVars req vars).Body = req.Body ∧
    (∀ vars2 : PathVars, vars2.Perm vars →
      ∀ key, (attachVars req vars2).Value key = (attachVars req vars).Value key) := by
  have hnd := matchPath_nodup _ _ _ hv
  have hs := serveHTTP_first_match router w req pre route post vars hr hpre hm hv
  rw [if_neg hne] at hs
  refine ⟨hs, fun k v h => attachVars_value_mem req vars hnd k v h,
    fun key h => attachVars_value_other req vars key h, ?_, ?_, ?_, ?_, ?_⟩
  · rw [attachVars_eq]
  · rw [attachVars_eq]
  · rw [attachVars_eq]
  · rw [attachVars_eq]
  · intro vars2 hp key
    have hnd2 : (vars2.map Prod.fst).Nodup := ((hp.map Prod.fst).nodup_iff).2 hnd
    by_cases hk : ∃ k v, (k, v) ∈ vars ∧ key = .pathVarName k
    · obtain ⟨k, v, hmem, rfl⟩ := hk
      rw [attachVars_value_mem req vars hnd k v hmem,
        attachVars_value_mem req vars2 hnd2 k v (hp.mem_iff.2 hmem)]
    · have h1 : ∀ k v, (k, v) ∈ vars → key ≠ .pathVarName k :=
        fun k v hmem hkey => hk ⟨k, v, hmem, hkey⟩
      rw [attachVars_value_other req vars key h1,
        attachVars_value_other req vars2 key fun k v hmem => h1 k v (hp.mem_iff.1 hmem)]

/-- Witness for `handler_gets_path_variables`: `GET /users` on `overlapRouter`;
the handler's request returns "users" under `pathVarName("id")` and nothing
under a key of another type with the same text. -/
theorem handler_gets_path_variables_witness :
    matchPath idRegexp "/users".toList = some [("id".toList, "users".toList)] ∧
    overlapRouter.ServeHTTP NewRecorder (NewRequest "GET".toList "/users".toList) =
      bookHandler (setCORS NewRecorder overlapRouter.Domains)
        (attachVars (NewRequest "GET".toList "/users".toList)
          [("id".toList, "users".toList)]) ∧
    (attachVars (NewRequest "GET".toList "/users".toList)
      [("id".toList, "users".toList)]).Value (.pathVarName "id".toList) =
        some "users".toList ∧
    (attachVars (NewRequest "GET".toList "/users".toList)
      [("id".toList, "users".toList)]).Value (.other "id".toList) =
        (NewRequest "GET".toList "/users".toList).Value (.other "id".toList) :=
  have h := handler_gets_path_variables overlapRouter NewRecorder
    (NewRequest "GET".toList "/users".toList)
    [] ⟨"GET".toList, idRegexp, bookHandler⟩
    [⟨"GET".toList, exactRegexp "/users".toList, helloHandler⟩]
    [("id".toList, "users".toList)] rfl (by simp) rfl (by decide) (by decide)
  ⟨by decide, h.1, h.2.1 _ _ (List.mem_singleton.2 rfl),
    h.2.2.1 _ (fun k v hmem hkey => by cases hkey)⟩

/-- C19: for every template, `createRegexPattern` returns "^" followed by
`QuoteMeta` of the template and "$": the escaped template never contains
"/{", the placeholder pattern finds no match in it, and so nothing is
replaced. Consequently the route that `AddRoute` appends matches a path
exactly when the path equals the template text, and then yields the empty
variable mapping. -/
theorem createRegexPattern_is_quoteMeta (router : Router) (method path : Str)
    (handler : HandlerFunc) :
    createRegexPattern path = some ("^".toList ++ QuoteMeta path ++ "$".toList) ∧
    ¬ "/\x7b".toList <:+: QuoteMeta path ∧
    MustCompile "/\x7b([^/]+)\x7d".toList = some placeholderRegexp ∧
    placeholderRegexp.FindStringSubmatch (QuoteMeta path) = [] ∧
    ∃ re : Regexp,
      router.AddRoute method path handler =
        some { Routes := router.Routes ++ [⟨method, re, handler⟩], Domains := router.Domains } ∧
      ∀ p : Str, matchPath re p = if p = path then some [] else none := by
  refine ⟨createRegexPattern_eq path, quoteMeta_no_slash_brace path, mustCompile_placeholder,
    ?_, exactRegexp path, addRoute_eq _ _ _ _, matchPath_exact path⟩
  rw [Regexp.FindStringSubmatch,
    search_placeholder_none _ (quoteMeta_no_slash_brace path) 0]

end Puggy
